import Mathlib

/-!
# DailyFlow — shallow embedding and verification

This file embeds the core state-manipulating functions of the DailyFlow
task-checklist application (task reordering, task update, device-registry
management, JSON import/export) as executable Lean definitions, translated
from the application source, and proves or refutes the specification claims
about them.
-/

set_option maxRecDepth 4000

namespace DailyFlow

/-- Task status sum type, from `TaskStatus` in the types module. -/
inductive TaskStatus where
  | PENDING
  | COMPLETED
  | SKIPPED
deriving DecidableEq, Repr

/-- A task record, from the `Task` interface in the types module.
`createdAt` is epoch milliseconds, modelled as `Int`. -/
structure Task where
  id : String
  name : String
  description : String
  checkInTime : String
  device : String
  appOrUrl : String
  status : TaskStatus
  createdAt : Int
deriving DecidableEq, Repr

/-- The built-in default device labels (`DEFAULT_DEVICES` in the types module). -/
def DEFAULT_DEVICES : List String := ["手机", "电脑", "平板", "其他"]

/-- The task fields editable through the form: `Omit<Task, 'id' | 'createdAt'>`. -/
structure TaskData where
  name : String
  description : String
  checkInTime : String
  device : String
  appOrUrl : String
  status : TaskStatus
deriving DecidableEq, Repr

/-- The update branch of `handleSaveTask`: `prev.map(t => t.id === editingTask.id
? { ...t, ...taskData } : t)` — the spread keeps the original `id` and
`createdAt` and overwrites every `TaskData` field. -/
def handleSaveTaskUpdate (tasks : List Task) (editingId : String) (d : TaskData) : List Task :=
  tasks.map fun t =>
    if t.id = editingId then
      { t with name := d.name, description := d.description, checkInTime := d.checkInTime,
               device := d.device, appOrUrl := d.appOrUrl, status := d.status }
    else t

/-- JavaScript `Array.prototype.findIndex`, with `-1` rendered as `none`. -/
def jsFindIndex (p : α → Bool) : List α → Option Nat
  | [] => none
  | a :: l => if p a then some 0 else (jsFindIndex p l).map (· + 1)

/-- JavaScript `arr.splice(i, 1)` viewed as the list left behind: the element at
index `i` is dropped; an out-of-range index leaves the list unchanged. -/
def spliceRemove : List α → Nat → List α
  | [], _ => []
  | _ :: l, 0 => l
  | a :: l, n + 1 => a :: spliceRemove l n

/-- JavaScript `arr.splice(n, 0, x)` viewed as the resulting list: `x` is
inserted at index `n`; an index past the end appends (JS clamps to length). -/
def spliceInsert : List α → Nat → α → List α
  | l, 0, x => x :: l
  | [], _ + 1, x => [x]
  | a :: l, n + 1, x => a :: spliceInsert l n x

/-- `handleDrop` from the application component: on a drop with
`draggedTaskId !== targetId`, find both indices in the current list, and when
both are found splice the dragged task out of `fromIndex` and splice it back in
at `toIndex` (an index computed **before** the removal). -/
def handleDrop (tasks : List Task) (draggedTaskId targetId : String) : List Task :=
  if draggedTaskId ≠ targetId then
    match jsFindIndex (fun t => t.id == draggedTaskId) tasks,
          jsFindIndex (fun t => t.id == targetId) tasks with
    | some fromIndex, some toIndex =>
      match tasks.get? fromIndex with
      | some movedItem => spliceInsert (spliceRemove tasks fromIndex) toIndex movedItem
      | none => tasks
    | _, _ => tasks
  else tasks

/-- Modelled from the spec words of the reorder claim (for refinement
comparison only, not from the source): remove the source task, then reinsert it
at the index the target occupies in the list **after** the source's removal. -/
def reorderSpecInsertBeforeTarget (tasks : List Task) (sourceId targetId : String) : List Task :=
  if sourceId ≠ targetId then
    match jsFindIndex (fun t => t.id == sourceId) tasks with
    | some i =>
      match tasks.get? i with
      | some moved =>
        let rest := spliceRemove tasks i
        match jsFindIndex (fun t => t.id == targetId) rest with
        | some j => spliceInsert rest j moved
        | none => tasks
      | none => tasks
    | none => tasks
  else tasks

/-- The `devices` state initializer: `saved ? JSON.parse(saved) : DEFAULT_DEVICES`
with the parse wrapped in try/catch.  `none` stands for no stored registry (and
likewise for an unparseable one, which the catch also maps to the default). -/
def devicesInit (saved : Option (List String)) : List String :=
  match saved with
  | none => DEFAULT_DEVICES
  | some ds => ds

/-- An ASCII whitespace character (the characters `String.prototype.trim`
strips that occur in this application's data). -/
def isWs (c : Char) : Bool :=
  c == ' ' || c == '\t' || c == '\n' || c == '\r'

/-- JavaScript `String.prototype.trim`: strip leading and trailing
whitespace. -/
def jsTrim (s : String) : String :=
  ⟨((s.data.dropWhile isWs).reverse.dropWhile isWs).reverse⟩

/-- `handleAddDevice`: append the trimmed label when it is non-empty and not
already present (exact, case-sensitive `includes`); otherwise leave the
registry unchanged. -/
def handleAddDevice (devices : List String) (newDevice : String) : List String :=
  if jsTrim newDevice ≠ "" ∧ ¬ devices.contains (jsTrim newDevice) then
    devices ++ [jsTrim newDevice]
  else devices

/-- `handleDeleteDevice` (the confirmed branch):
`devices.filter((_, i) => i !== index)`. -/
def handleDeleteDevice (devices : List String) (index : Nat) : List String :=
  (devices.enum.filter fun p => p.1 ≠ index).map Prod.snd

/-- Which of the three branches of `saveEditingDevice` ran. -/
inductive RenameOutcome where
  | saved
  | noopClosed
  | rejected
deriving DecidableEq, Repr

/-- JavaScript `Array.prototype.some` with the element index passed to the
predicate, starting the count at `k`. -/
def someWithIndex (p : Nat → α → Bool) : Nat → List α → Bool
  | _, [] => false
  | k, a :: l => p k a || someWithIndex p (k + 1) l

/-- `saveEditingDevice(index)` with `editingDeviceValue = value`: write the
trimmed value at `index` when it is non-empty and no *other* index holds it
(`devices.some((d, i) => i !== index && d === v)`); otherwise, when the trimmed
value equals the current value at `index`, close the editor without change
(no-op success); otherwise reject with an alert. -/
def saveEditingDevice (devices : List String) (index : Nat) (value : String) :
    List String × RenameOutcome :=
  if jsTrim value ≠ "" ∧
      someWithIndex (fun i d => i != index && d == jsTrim value) 0 devices = false then
    (devices.set index (jsTrim value), .saved)
  else if devices.get? index = some (jsTrim value) then
    (devices, .noopClosed)
  else
    (devices, .rejected)

/-! ## JSON model for the import/export codec

JavaScript values produced by `JSON.parse` are modelled by `Json`; numbers are
modelled as integers (all numbers the codec handles are). Field access `x.k`
on a non-object yields `undefined` (here `none`) except on `null`, where it
throws a `TypeError` — the import handler's surrounding try/catch turns such a
throw into the same alert as a JSON parse error. -/

inductive Json where
  | null
  | bool (b : Bool)
  | num (n : Int)
  | str (s : String)
  | arr (elems : List Json)
  | obj (fields : List (String × Json))

/-- JavaScript truthiness of a defined value. -/
def jsTruthy : Json → Bool
  | .null => false
  | .bool b => b
  | .num n => n ≠ 0
  | .str s => s ≠ ""
  | .arr _ => true
  | .obj _ => true

/-- Truthiness of a possibly-`undefined` value. -/
def jsTruthyOpt : Option Json → Bool
  | none => false
  | some v => jsTruthy v

/-- Object field lookup with JavaScript semantics for duplicate keys
(the last occurrence wins, as in `JSON.parse`). -/
def jlookup (fields : List (String × Json)) (key : String) : Option Json :=
  fields.foldl (fun acc p => if p.1 = key then some p.2 else acc) none

/-- Field access `v.k` on a defined non-`null` value: objects look the key up,
every other value yields `undefined`. (`null.k` throws and is handled at the
call sites.) -/
def jget (v : Json) (key : String) : Option Json :=
  match v with
  | .obj fields => jlookup fields key
  | _ => none

/-- One evaluation of the predicate `t => t.id && t.name && t.checkInTime`:
on a `null` element the first field access throws a `TypeError` (`.error ()`),
which the import handler's surrounding try/catch catches. -/
def validTaskElem : Json → Except Unit Bool
  | .null => .error ()
  | t => .ok (jsTruthyOpt (jget t "id") && jsTruthyOpt (jget t "name")
              && jsTruthyOpt (jget t "checkInTime"))

/-- `importedTasks.every(t => t.id && t.name && t.checkInTime)`: `every`
short-circuits at the first falsy result, so elements after it are not
touched, and a thrown `TypeError` propagates. -/
def validateTasks : List Json → Except Unit Bool
  | [] => .ok true
  | t :: rest =>
    match validTaskElem t with
    | .error e => .error e
    | .ok true => validateTasks rest
    | .ok false => .ok false

/-- The slice of application state the import/export codec touches. Imported
values are stored as parsed, so both lists hold raw JSON values. -/
structure ImportState where
  tasks : List Json
  devices : List Json

/-- The observable outcome of `handleImportConfirm`. -/
inductive ImportOutcome where
  | parseError      -- "JSON 格式错误": JSON.parse threw, or a TypeError reached the catch
  | unrecognized    -- "数据格式无法识别"
  | noTaskData      -- "未找到有效的任务数据"
  | invalidTaskData -- "任务数据格式不正确"
  | success         -- user confirmed; setTasks / setDevices committed
deriving DecidableEq, Repr

/-- The tail of `handleImportConfirm` after the shape analysis: the
`importedTasks.length > 0 || (data.tasks && data.tasks.length === 0)` guard
(`hasTasksField` records whether `data` is an object whose `tasks` field held
the array, in which case `data.tasks` is that truthy array), then validation,
then the confirmed commit `setTasks` / `setDevices`. -/
def importCommit (st : ImportState) (importedTasks : List Json)
    (importedDevices : Option (List Json)) (hasTasksField : Bool) :
    ImportState × ImportOutcome :=
  if importedTasks.length > 0 ∨ (hasTasksField ∧ importedTasks.length = 0) then
    match validateTasks importedTasks with
    | .error _ => (st, .parseError)
    | .ok false => (st, .invalidTaskData)
    | .ok true =>
      ({ tasks := importedTasks,
         devices := match importedDevices with
                    | some ds => ds
                    | none => st.devices }, .success)
  else (st, .noTaskData)

/-- `if (data.devices && Array.isArray(data.devices)) importedDevices =
data.devices`: the adopted raw device array, if any. -/
def importedDevicesOf (fields : List (String × Json)) : Option (List Json) :=
  match jlookup fields "devices" with
  | some devicesVal =>
    if jsTruthy devicesVal then
      match devicesVal with
      | .arr deviceElems => some deviceElems
      | _ => none
    else none
  | none => none

/-- The object-shaped branch of the import: `data.tasks && Array.isArray(data.tasks)`
selects the versioned document, anything else is unrecognized. -/
def importFromObj (st : ImportState) (fields : List (String × Json)) :
    ImportState × ImportOutcome :=
  match jlookup fields "tasks" with
  | some tasksVal =>
    if jsTruthy tasksVal then
      match tasksVal with
      | .arr taskElems => importCommit st taskElems (importedDevicesOf fields) true
      | _ => (st, .unrecognized)
    else (st, .unrecognized)
  | none => (st, .unrecognized)

/-- `handleImportConfirm`, from parsed input to committed state and outcome.
`parsed = none` stands for `JSON.parse` throwing on the pasted text. The shape
analysis follows the source: a bare array is the legacy task list; an object
whose `tasks` field is truthy and an array is the versioned document, adopting
`devices` when that field is truthy and an array; `null` makes `data.tasks`
throw a `TypeError` into the catch; anything else is unrecognized. -/
def handleImportConfirm (st : ImportState) (parsed : Option Json) :
    ImportState × ImportOutcome :=
  match parsed with
  | none => (st, .parseError)
  | some data =>
    match data with
    | .arr elems => importCommit st elems none false
    | .null => (st, .parseError)
    | .obj fields => importFromObj st fields
    | _ => (st, .unrecognized)

/-- Serialization of a task status, as `JSON.stringify` renders the enum. -/
def statusToJson : TaskStatus → Json
  | .PENDING => .str "PENDING"
  | .COMPLETED => .str "COMPLETED"
  | .SKIPPED => .str "SKIPPED"

/-- Serialization of a stored task, as `JSON.stringify` renders it. -/
def taskToJson (t : Task) : Json :=
  .obj [("id", .str t.id), ("name", .str t.name), ("description", .str t.description),
        ("checkInTime", .str t.checkInTime), ("device", .str t.device),
        ("appOrUrl", .str t.appOrUrl), ("status", statusToJson t.status),
        ("createdAt", .num t.createdAt)]

/-- `handleExport`: the backup document `{ tasks, devices, version: 1 }`
(serialization to text and parsing back is the identity on this JSON model,
so export is modelled as producing the JSON value directly). -/
def handleExport (st : ImportState) : Json :=
  .obj [("tasks", .arr st.tasks), ("devices", .arr st.devices), ("version", .num 1)]

/-- The well-typed state whose task list is `ts` and device registry is `ds`,
as it sits in memory after normal (non-import) operation. -/
def typedState (ts : List Task) (ds : List String) : ImportState :=
  { tasks := ts.map taskToJson, devices := ds.map .str }

/-- Concrete tasks used by the concrete counterexamples and witnesses. -/
def tA : Task := ⟨"a", "A", "", "09:00", "手机", "", .PENDING, 1⟩

/-- Second concrete task. -/
def tB : Task := ⟨"b", "B", "", "10:00", "手机", "", .PENDING, 2⟩

/-- Third concrete task. -/
def tC : Task := ⟨"c", "C", "", "11:00", "手机", "", .PENDING, 3⟩

/-- Fourth concrete task. -/
def tD : Task := ⟨"d", "D", "", "12:00", "手机", "", .PENDING, 4⟩

/-! ## Helper lemmas about the JavaScript array primitives -/

theorem jsFindIndex_lt_length {p : α → Bool} {l : List α} {i : Nat}
    (h : jsFindIndex p l = some i) : i < l.length := by
  induction l generalizing i with
  | nil => simp [jsFindIndex] at h
  | cons a l ih =>
    rw [jsFindIndex] at h
    by_cases hpa : p a
    · rw [if_pos hpa] at h
      cases h
      simp
    · rw [if_neg hpa] at h
      rcases hmap : jsFindIndex p l with _ | j
      · rw [hmap] at h; simp at h
      · rw [hmap] at h
        simp at h
        subst h
        have := ih hmap
        simp only [List.length_cons]
        omega

theorem spliceRemove_length {l : List α} {i : Nat} (h : i < l.length) :
    (spliceRemove l i).length = l.length - 1 := by
  induction l generalizing i with
  | nil => simp at h
  | cons a l ih =>
    cases i with
    | zero => simp [spliceRemove]
    | succ n =>
      have hn : n < l.length := by simpa using Nat.lt_of_succ_lt_succ h
      have := ih hn
      simp only [spliceRemove, List.length_cons]
      omega

theorem spliceRemove_get?_lt {l : List α} {i j : Nat} (h : j < i) :
    (spliceRemove l i).get? j = l.get? j := by
  induction l generalizing i j with
  | nil => simp [spliceRemove]
  | cons a l ih =>
    cases i with
    | zero => omega
    | succ n =>
      cases j with
      | zero => simp [spliceRemove]
      | succ m =>
        simp only [spliceRemove, List.get?_cons_succ]
        exact ih (by omega)

theorem spliceRemove_get?_ge {l : List α} {i j : Nat} (hij : i ≤ j) (hi : i < l.length) :
    (spliceRemove l i).get? j = l.get? (j + 1) := by
  induction l generalizing i j with
  | nil => simp at hi
  | cons a l ih =>
    cases i with
    | zero => simp [spliceRemove]
    | succ n =>
      cases j with
      | zero => omega
      | succ m =>
        simp only [spliceRemove, List.get?_cons_succ]
        exact ih (by omega) (by simpa using Nat.lt_of_succ_lt_succ hi)

theorem spliceInsert_get?_self {l : List α} {n : Nat} (x : α) (h : n ≤ l.length) :
    (spliceInsert l n x).get? n = some x := by
  induction l generalizing n with
  | nil =>
    have : n = 0 := by simpa using h
    subst this
    simp [spliceInsert]
  | cons a l ih =>
    cases n with
    | zero => simp [spliceInsert]
    | succ m =>
      simp only [spliceInsert, List.get?_cons_succ]
      exact ih (by simpa using Nat.le_of_succ_le_succ h)

theorem spliceInsert_get?_lt {l : List α} {n j : Nat} (x : α) (hj : j < n) (hn : n ≤ l.length) :
    (spliceInsert l n x).get? j = l.get? j := by
  induction l generalizing n j with
  | nil =>
    have : n = 0 := by simpa using hn
    omega
  | cons a l ih =>
    cases n with
    | zero => omega
    | succ m =>
      cases j with
      | zero => simp [spliceInsert]
      | succ k =>
        simp only [spliceInsert, List.get?_cons_succ]
        exact ih (by omega) (by simpa using Nat.le_of_succ_le_succ hn)

theorem spliceInsert_get?_succ {l : List α} {n j : Nat} (x : α) (hn : n ≤ j) :
    (spliceInsert l n x).get? (j + 1) = l.get? j := by
  induction l generalizing n j with
  | nil =>
    cases n with
    | zero => simp [spliceInsert]
    | succ m => cases j <;> simp [spliceInsert]
  | cons a l ih =>
    cases n with
    | zero => simp [spliceInsert]
    | succ m =>
      cases j with
      | zero => omega
      | succ k =>
        simp only [spliceInsert, List.get?_cons_succ]
        exact ih (by omega)

theorem spliceInsert_perm (l : List α) (n : Nat) (x : α) :
    (spliceInsert l n x).Perm (x :: l) := by
  induction l generalizing n with
  | nil => cases n <;> exact List.Perm.refl _
  | cons a l ih =>
    cases n with
    | zero => exact List.Perm.refl _
    | succ m =>
      exact (List.Perm.cons a (ih m)).trans (List.Perm.swap x a l)

theorem spliceRemove_cons_perm {l : List α} {i : Nat} {x : α} (h : l.get? i = some x) :
    (x :: spliceRemove l i).Perm l := by
  induction l generalizing i with
  | nil => simp at h
  | cons a l ih =>
    cases i with
    | zero =>
      simp only [List.get?_cons_zero, Option.some.injEq] at h
      subst h
      exact List.Perm.refl _
    | succ n =>
      have hx : l.get? n = some x := by simpa using h
      exact (List.Perm.swap a x _).trans (List.Perm.cons a (ih hx))

theorem set_get?_self {l : List α} {i : Nat} {v : α} (h : l.get? i = some v) :
    l.set i v = l := by
  induction l generalizing i with
  | nil => rfl
  | cons a l ih =>
    cases i with
    | zero =>
      simp only [List.get?_cons_zero, Option.some.injEq] at h
      simp [h]
    | succ n =>
      simp only [List.get?_cons_succ] at h
      simp [ih h]

theorem someWithIndex_of_get? {p : Nat → α → Bool} {l : List α} {j k : Nat} {x : α}
    (hx : l.get? j = some x) (hp : p (k + j) x = true) :
    someWithIndex p k l = true := by
  induction l generalizing j k with
  | nil => simp at hx
  | cons a l ih =>
    cases j with
    | zero =>
      simp only [List.get?_cons_zero, Option.some.injEq] at hx
      subst hx
      simp only [someWithIndex, Bool.or_eq_true]
      exact Or.inl (by simpa using hp)
    | succ m =>
      simp only [List.get?_cons_succ] at hx
      simp only [someWithIndex, Bool.or_eq_true]
      exact Or.inr (ih hx (by rw [show k + 1 + m = k + (m + 1) by omega]; exact hp))

/-! ## Claim theorems -/

/-- C1: the claim predicts that a committed drop reinserts the source at the
index the target occupies after the source's removal (landing immediately
before the target) even when the source precedes the target. On
`[tA, tB, tC]` with source `"a"` and target `"c"` the code instead lands the
source immediately after the target: `handleDrop` yields `[tB, tC, tA]`, while
the claim's construction yields `[tB, tA, tC]`. -/
theorem c1_counterexample :
    handleDrop [tA, tB, tC] "a" "c" = [tB, tC, tA] ∧
    reorderSpecInsertBeforeTarget [tA, tB, tC] "a" "c" = [tB, tA, tC] ∧
    handleDrop [tA, tB, tC] "a" "c" ≠ reorderSpecInsertBeforeTarget [tA, tB, tC] "a" "c" :=
  ⟨by decide, by decide, by decide⟩

/-- C1 (amended): with a valid, distinct source and target, `handleDrop`
removes the source and reinserts it at the index the target occupied in the
list **before** the removal. Consequently the source lands at the target's old
index `j`; when the source was after the target (`j < i`) the target ends up
right after the source (the source lands immediately before it), and when the
source was before the target (`i < j`) the target ends up right before the
source (the source lands immediately after it). -/
theorem c1_amended (tasks : List Task) (s t : String) (i j : Nat) (moved : Task)
    (hs : jsFindIndex (fun x => x.id == s) tasks = some i)
    (ht : jsFindIndex (fun x => x.id == t) tasks = some j)
    (hne : s ≠ t) (hm : tasks.get? i = some moved) :
    handleDrop tasks s t = spliceInsert (spliceRemove tasks i) j moved ∧
    (handleDrop tasks s t).get? j = some moved ∧
    (j < i → (handleDrop tasks s t).get? (j + 1) = tasks.get? j) ∧
    (i < j → (handleDrop tasks s t).get? (j - 1) = tasks.get? j) := by
  have hi : i < tasks.length := jsFindIndex_lt_length hs
  have hj : j < tasks.length := jsFindIndex_lt_length ht
  have hD : handleDrop tasks s t = spliceInsert (spliceRemove tasks i) j moved := by
    unfold handleDrop
    rw [if_pos hne, hs, ht]
    show (match tasks.get? i with
          | some movedItem => spliceInsert (spliceRemove tasks i) j movedItem
          | none => tasks) = spliceInsert (spliceRemove tasks i) j moved
    rw [hm]
  have hrlen : (spliceRemove tasks i).length = tasks.length - 1 := spliceRemove_length hi
  have hjr : j ≤ (spliceRemove tasks i).length := by omega
  refine ⟨hD, ?_, ?_, ?_⟩
  · rw [hD]
    exact spliceInsert_get?_self moved hjr
  · intro hlt
    rw [hD, spliceInsert_get?_succ moved (Nat.le_refl j)]
    exact spliceRemove_get?_lt hlt
  · intro hlt
    rw [hD, spliceInsert_get?_lt moved (by omega) hjr,
        spliceRemove_get?_ge (by omega) hi]
    congr 1
    omega

/-- C1 (amended) at a concrete input: on `[tA, tB, tC]` with source `"c"`
(index 2) and target `"a"` (index 0), the drop reinserts `tC` at index 0,
immediately before `tA`. -/
theorem c1_amended_witness :
    handleDrop [tA, tB, tC] "c" "a" = spliceInsert (spliceRemove [tA, tB, tC] 2) 0 tC ∧
    (handleDrop [tA, tB, tC] "c" "a").get? 0 = some tC ∧
    (0 < 2 → (handleDrop [tA, tB, tC] "c" "a").get? 1 = [tA, tB, tC].get? 0) ∧
    (2 < 0 → (handleDrop [tA, tB, tC] "c" "a").get? 0 = [tA, tB, tC].get? 0) :=
  c1_amended [tA, tB, tC] "c" "a" 2 0 tC (by decide) (by decide) (by decide) (by decide)

/-- C5: on the list `[A, B, C, D]`, dropping source `C` on target `B` yields
`[A, C, B, D]`; a self-drop leaves the list unchanged; a source or target id
not present in the list leaves it unchanged. -/
theorem c5_reorder_examples :
    handleDrop [tA, tB, tC, tD] "c" "b" = [tA, tC, tB, tD] ∧
    handleDrop [tA, tB, tC, tD] "a" "a" = [tA, tB, tC, tD] ∧
    handleDrop [tA, tB, tC, tD] "x" "b" = [tA, tB, tC, tD] ∧
    handleDrop [tA, tB, tC, tD] "c" "x" = [tA, tB, tC, tD] :=
  ⟨by decide, by decide, by decide, by decide⟩

/-- C10: a committed drop always yields a permutation of the task list — no
task is added, removed, duplicated, or modified; only positions change. -/
theorem c10_drop_perm (tasks : List Task) (s t : String) :
    (handleDrop tasks s t).Perm tasks := by
  unfold handleDrop
  by_cases hne : s ≠ t
  · rw [if_pos hne]
    rcases h1 : jsFindIndex (fun x => x.id == s) tasks with _ | i
    · rw [h1]
    · rcases h2 : jsFindIndex (fun x => x.id == t) tasks with _ | j
      · rw [h1, h2]
      · rw [h1, h2]
        show (match tasks.get? i with
              | some movedItem => spliceInsert (spliceRemove tasks i) j movedItem
              | none => tasks).Perm tasks
        rcases h3 : tasks.get? i with _ | moved
        · exact List.Perm.refl _
        · exact (spliceInsert_perm _ j moved).trans (spliceRemove_cons_perm h3)
  · rw [if_neg hne]

theorem update_noop (tasks : List Task) (editingId : String) (d : TaskData)
    (h : ∀ t ∈ tasks, t.id ≠ editingId) : handleSaveTaskUpdate tasks editingId d = tasks := by
  induction tasks with
  | nil => rfl
  | cons a l ih =>
    have ha : a.id ≠ editingId := h a (List.mem_cons_self a l)
    have hl := ih (fun t htl => h t (List.mem_cons_of_mem a htl))
    simp only [handleSaveTaskUpdate, List.map_cons] at hl ⊢
    rw [if_neg ha, hl]

/-- C7: updating with an id present in the list replaces that task's editable
fields with the form data while keeping its `id` and `createdAt`, leaves every
other task untouched, preserves the list length and order, and is a structural
no-op when the id is absent. -/
theorem c7_update_frame (tasks : List Task) (editingId : String) (d : TaskData) :
    (handleSaveTaskUpdate tasks editingId d).length = tasks.length ∧
    (∀ i t, tasks.get? i = some t →
      ∃ r, (handleSaveTaskUpdate tasks editingId d).get? i = some r ∧
        r.id = t.id ∧ r.createdAt = t.createdAt ∧
        (t.id = editingId →
          r.name = d.name ∧ r.description = d.description ∧ r.checkInTime = d.checkInTime ∧
          r.device = d.device ∧ r.appOrUrl = d.appOrUrl ∧ r.status = d.status) ∧
        (t.id ≠ editingId → r = t)) ∧
    ((∀ t ∈ tasks, t.id ≠ editingId) → handleSaveTaskUpdate tasks editingId d = tasks) := by
  refine ⟨List.length_map _ _, ?_, update_noop tasks editingId d⟩
  intro i t ht
  have hmap : (handleSaveTaskUpdate tasks editingId d).get? i =
      some (if t.id = editingId then
        { t with name := d.name, description := d.description, checkInTime := d.checkInTime,
                 device := d.device, appOrUrl := d.appOrUrl, status := d.status }
      else t) := by
    unfold handleSaveTaskUpdate
    rw [List.get?_map, ht]
    rfl
  by_cases hid : t.id = editingId
  · rw [if_pos hid] at hmap
    exact ⟨_, hmap, rfl, rfl, fun _ => ⟨rfl, rfl, rfl, rfl, rfl, rfl⟩,
           fun hne => absurd hid hne⟩
  · rw [if_neg hid] at hmap
    exact ⟨t, hmap, rfl, rfl, fun h => absurd h hid, fun _ => rfl⟩

/-- C7 at a concrete input: updating with an id not present in the singleton
list leaves it unchanged. -/
theorem c7_update_frame_witness :
    handleSaveTaskUpdate [tA] "zz" ⟨"N", "D", "08:00", "电脑", "", .COMPLETED⟩ = [tA] :=
  (c7_update_frame [tA] "zz" ⟨"N", "D", "08:00", "电脑", "", .COMPLETED⟩).2.2 (by decide)

/-- C8: adding a label that trims to empty, or whose trimmed form is already
present (case-sensitive), leaves the registry unchanged; renaming to an
empty-trimming value, or to a value held at another index, is rejected with
the registry unchanged — except that renaming an entry to its own current
value succeeds as a no-op. -/
theorem c8_device_validation (devices : List String) (index : Nat) (label : String) :
    (jsTrim label = "" → handleAddDevice devices label = devices) ∧
    (devices.contains (jsTrim label) = true → handleAddDevice devices label = devices) ∧
    (jsTrim label = "" → devices.get? index ≠ some (jsTrim label) →
      saveEditingDevice devices index label = (devices, .rejected)) ∧
    (∀ j, j ≠ index → devices.get? j = some (jsTrim label) →
      devices.get? index ≠ some (jsTrim label) →
      saveEditingDevice devices index label = (devices, .rejected)) ∧
    (devices.get? index = some (jsTrim label) →
      (saveEditingDevice devices index label).1 = devices ∧
      (saveEditingDevice devices index label).2 ≠ .rejected) := by
  refine ⟨?_, ?_, ?_, ?_, ?_⟩
  · intro h
    unfold handleAddDevice
    rw [if_neg (fun hcon => hcon.1 h)]
  · intro h
    unfold handleAddDevice
    rw [if_neg (fun hcon => hcon.2 h)]
  · intro h hown
    unfold saveEditingDevice
    rw [if_neg (fun hcon => hcon.1 h), if_neg hown]
  · intro j hj hothers hown
    have hsome : someWithIndex (fun i d => i != index && d == jsTrim label) 0 devices = true :=
      someWithIndex_of_get? (k := 0) hothers (by simp [hj])
    unfold saveEditingDevice
    rw [if_neg (fun hcon => by simp [hsome] at hcon), if_neg hown]
  · intro hown
    unfold saveEditingDevice
    by_cases hc : jsTrim label ≠ "" ∧
        someWithIndex (fun i d => i != index && d == jsTrim label) 0 devices = false
    · rw [if_pos hc]
      exact ⟨set_get?_self hown, fun h => RenameOutcome.noConfusion h⟩
    · rw [if_neg hc, if_pos hown]
      exact ⟨rfl, fun h => RenameOutcome.noConfusion h⟩

/-- C8 at a concrete input: renaming `"a"` (index 0 of `["a", "b"]`) to its own
current value succeeds as a no-op. -/
theorem c8_device_validation_witness :
    (saveEditingDevice ["a", "b"] 0 "a").1 = ["a", "b"] ∧
    (saveEditingDevice ["a", "b"] 0 "a").2 ≠ RenameOutcome.rejected :=
  (c8_device_validation ["a", "b"] 0 "a").2.2.2.2 (by decide)

/-- C6: the claim says the registry remains non-empty under every sequence of
add, rename, and remove operations, but `handleDeleteDevice` removes
unconditionally: starting from the load-time default registry, four removes
leave it empty. -/
theorem c6_counterexample :
    devicesInit none = DEFAULT_DEVICES ∧
    handleDeleteDevice (handleDeleteDevice (handleDeleteDevice (handleDeleteDevice
      (devicesInit none) 0) 0) 0) 0 = [] :=
  ⟨rfl, by decide⟩

/-- C6 (amended): the registry is the non-empty built-in default at load when
no registry exists in storage, and add and rename never empty a non-empty
registry; remove, however, deletes unconditionally, so removing the only entry
empties the registry. -/
theorem c6_amended :
    devicesInit none = DEFAULT_DEVICES ∧
    DEFAULT_DEVICES ≠ [] ∧
    (∀ ds label, ds ≠ [] → handleAddDevice ds label ≠ []) ∧
    (∀ ds index value, ds ≠ [] → (saveEditingDevice ds index value).1 ≠ []) ∧
    handleDeleteDevice ["手机"] 0 = [] := by
  refine ⟨rfl, by decide, ?_, ?_, by decide⟩
  · intro ds label hne
    unfold handleAddDevice
    split
    · simp
    · exact hne
  · intro ds index value hne
    unfold saveEditingDevice
    split
    · intro h
      apply hne
      have hlen := congrArg List.length h
      rw [List.length_set] at hlen
      exact List.length_eq_zero.mp hlen
    · split
      · exact hne
      · exact hne

/-- C6 (amended) at a concrete input: adding to a non-empty registry keeps it
non-empty. -/
theorem c6_amended_witness : handleAddDevice ["手机"] "电脑" ≠ [] :=
  c6_amended.2.2.1 ["手机"] "电脑" (by decide)

theorem validateTasks_map_taskToJson (ts : List Task)
    (h : ∀ t ∈ ts, t.id ≠ "" ∧ t.name ≠ "" ∧ t.checkInTime ≠ "") :
    validateTasks (ts.map taskToJson) = .ok true := by
  induction ts with
  | nil => rfl
  | cons t ts ih =>
    obtain ⟨h1, h2, h3⟩ := h t (List.mem_cons_self t ts)
    have hrest := ih (fun x hx => h x (List.mem_cons_of_mem t hx))
    have he : validTaskElem (taskToJson t) = .ok true := by
      show Except.ok (decide ¬(t.id = "") && decide ¬(t.name = "")
            && decide ¬(t.checkInTime = "")) = Except.ok true
      simp [h1, h2, h3]
    simp only [List.map_cons, validateTasks, he, hrest]

theorem importCommit_cases (st : ImportState) (ts : List Json)
    (ds : Option (List Json)) (b : Bool) :
    (importCommit st ts ds b).1 = st ∨ (importCommit st ts ds b).2 = .success := by
  unfold importCommit
  split
  · split <;> first | exact Or.inl rfl | exact Or.inr rfl
  · exact Or.inl rfl

theorem importFromObj_cases (st : ImportState) (fields : List (String × Json)) :
    (importFromObj st fields).1 = st ∨ (importFromObj st fields).2 = .success := by
  unfold importFromObj
  split
  · split
    · split
      · exact importCommit_cases st _ (importedDevicesOf fields) true
      · exact Or.inl rfl
    · exact Or.inl rfl
  · exact Or.inl rfl

theorem handleImportConfirm_cases (st : ImportState) (parsed : Option Json) :
    (handleImportConfirm st parsed).1 = st ∨ (handleImportConfirm st parsed).2 = .success := by
  rcases parsed with _ | data
  · exact Or.inl rfl
  · cases data with
    | null => exact Or.inl rfl
    | bool b => exact Or.inl rfl
    | num n => exact Or.inl rfl
    | str s => exact Or.inl rfl
    | arr elems => exact importCommit_cases st elems none false
    | obj fields => exact importFromObj_cases st fields

/-- C2: the claim says importing the bare JSON text `[]` succeeds as "zero
tasks", but on a store holding one task the import is rejected with
"未找到有效的任务数据" (`noTaskData`) and the state is left unchanged — in
particular the outcome is not `success`. -/
theorem c2_counterexample :
    handleImportConfirm ⟨[taskToJson tA], [Json.str "手机"]⟩ (some (Json.arr [])) =
      (⟨[taskToJson tA], [Json.str "手机"]⟩, .noTaskData) ∧
    ImportOutcome.noTaskData ≠ ImportOutcome.success :=
  ⟨rfl, by decide⟩

/-- C2 (amended): importing the bare JSON text `[]` (the value `Json.arr []`)
always fails with `noTaskData` and leaves the store unchanged; only the
explicit form `{"tasks": []}` is accepted as "restore to zero tasks", clearing
the task list while keeping the device registry. -/
theorem c2_amended (st : ImportState) :
    handleImportConfirm st (some (Json.arr [])) = (st, .noTaskData) ∧
    handleImportConfirm st (some (Json.obj [("tasks", Json.arr [])])) =
      ({ tasks := [], devices := st.devices }, .success) :=
  ⟨rfl, rfl⟩

/-- C4: import is atomic on failure — whenever `handleImportConfirm` does not
end in a committed `success` (malformed JSON, a `TypeError` reaching the
catch, unrecognized shape, invalid task data, or no task data), the task list
and the device registry are exactly the state before the import. -/
theorem c4_import_atomic (st : ImportState) (parsed : Option Json)
    (h : (handleImportConfirm st parsed).2 ≠ .success) :
    (handleImportConfirm st parsed).1 = st := by
  rcases handleImportConfirm_cases st parsed with h1 | h1
  · exact h1
  · exact absurd h1 h

/-- C4 at a concrete input: importing `{"foo": 1}` (unrecognized shape) leaves
the one-task, one-device state unchanged. -/
theorem c4_import_atomic_witness :
    (handleImportConfirm ⟨[taskToJson tA], [Json.str "手机"]⟩
        (some (Json.obj [("foo", Json.num 1)]))).1 =
      (⟨[taskToJson tA], [Json.str "手机"]⟩ : ImportState) :=
  c4_import_atomic ⟨[taskToJson tA], [Json.str "手机"]⟩
    (some (Json.obj [("foo", Json.num 1)]))
    (fun h => ImportOutcome.noConfusion h)

/-- C3: round-trip — for a store state whose tasks all have non-empty `id`,
`name`, and `checkInTime`, importing the document produced by export commits
successfully and yields exactly the task list and device list from before the
export, element by element and in the same order. -/
theorem c3_roundtrip (ts : List Task) (ds : List String)
    (h : ∀ t ∈ ts, t.id ≠ "" ∧ t.name ≠ "" ∧ t.checkInTime ≠ "") :
    handleImportConfirm (typedState ts ds) (some (handleExport (typedState ts ds))) =
      (typedState ts ds, .success) := by
  have hval := validateTasks_map_taskToJson ts h
  show importCommit (typedState ts ds) (ts.map taskToJson)
      (some (ds.map Json.str)) true = (typedState ts ds, .success)
  unfold importCommit
  rw [if_pos ?hc]
  case hc =>
    by_cases hlen : (ts.map taskToJson).length = 0
    · exact Or.inr ⟨rfl, hlen⟩
    · exact Or.inl (Nat.pos_of_ne_zero hlen)
  rw [hval]
  rfl

/-- C3 at a concrete input: exporting a two-task, one-device state and
importing the result restores exactly that state. -/
theorem c3_roundtrip_witness :
    handleImportConfirm (typedState [tA, tB] ["手机"])
        (some (handleExport (typedState [tA, tB] ["手机"]))) =
      (typedState [tA, tB] ["手机"], .success) :=
  c3_roundtrip [tA, tB] ["手机"] (by decide)

/-- C9: the `devices` field of an imported object is not validated — whenever
the `tasks` elements pass validation, any JSON array under `devices`
(numbers, empty strings, duplicates, or no elements at all) wholesale
replaces the device registry on the committed import. -/
theorem c9_devices_unvalidated (st : ImportState) (taskElems deviceElems : List Json)
    (h : validateTasks taskElems = .ok true) :
    handleImportConfirm st
        (some (Json.obj [("tasks", Json.arr taskElems), ("devices", Json.arr deviceElems)])) =
      ({ tasks := taskElems, devices := deviceElems }, .success) := by
  show importCommit st taskElems (some deviceElems) true =
    ({ tasks := taskElems, devices := deviceElems }, .success)
  unfold importCommit
  rw [if_pos ?hc]
  case hc =>
    by_cases hlen : taskElems.length = 0
    · exact Or.inr ⟨rfl, hlen⟩
    · exact Or.inl (Nat.pos_of_ne_zero hlen)
  rw [h]

/-- C9 at a concrete input: a `devices` array holding a number, an empty
string, and a duplicated label replaces the registry verbatim. -/
theorem c9_devices_unvalidated_witness :
    handleImportConfirm ⟨[], [Json.str "旧"]⟩
        (some (Json.obj [("tasks", Json.arr [taskToJson tA]),
          ("devices", Json.arr [Json.num 5, Json.str "", Json.str "q", Json.str "q"])])) =
      ({ tasks := [taskToJson tA],
         devices := [Json.num 5, Json.str "", Json.str "q", Json.str "q"] }, .success) :=
  c9_devices_unvalidated ⟨[], [Json.str "旧"]⟩ [taskToJson tA]
    [Json.num 5, Json.str "", Json.str "q", Json.str "q"] (by rfl)

end DailyFlow
